import Mathlib

/-!
Verification of the schema-compare tool diff engine.

The subject is the diff engine of the repository (the functions
`diffSchemas`, `diffTables`, `diffColumns`, `compareColumnDetails`,
`diffIndexes`, `diffForeignKeys`, `diffEnums`, `diffPolicies`,
`diffFunctions`, `diffTriggers`, `normalize`, `groupBy` of src/diff.js,
bundled into src/report-terminal.js) together with the stats aggregator
(`computeStats` of src/report-terminal.js).

Modelling conventions for the JavaScript source:
- record objects become Lean structures with the same field names;
  nullable fields become `Option String` (null and undefined collapse to
  `none`, which is exactly how `normalize` treats them);
- a JS `Set` built from an array iterates in first-occurrence order:
  modelled by `dedupFirst`;
- a JS `Map` built from a key/value pair array has first-insertion key
  order with last-write-wins values: modelled by `mapKeys` and `mapGet`;
- the default `Array.prototype.sort()` comparator orders strings by
  UTF-16 code units: modelled by `lexLe` over the character list
  (identical to the code-unit order on the Basic Multilingual Plane);
- `JSON.stringify` of a flat record with a fixed key order is modelled
  by `polVal`, `funVal` and `trgVal`, which build the same JSON text:
  string fields quoted and backslash/quote-escaped by `jsonStr`, null
  fields as the JSON literal null, arrays by `jsonStrArr` — injective,
  like the source serialization (the control-character escapes JSON also
  applies never make distinct encodings collide and are omitted);
- a JS object literal used as a changed-list entry is modelled as an
  association list of field name / value pairs, so that the set of field
  names an entry carries is observable;
- `String.prototype.trim` is modelled by `jsTrim`, dropping the full
  ECMAScript WhiteSpace and LineTerminator character sets;
- the source `groupBy` (and the `buildMap` of `diffEnums`) indexes a
  plain object, which inherits the `Object.prototype` properties: a key
  such as `toString` finds the inherited truthy value, skips the array
  initializer and throws a TypeError at `.push`. `jsObjectGroupBy` keeps
  this error path (`none` is the thrown TypeError); the total functions
  `columnsOfTable` and `enumValuesOf` used by the diff model describe
  the non-throwing executions only.
-/

namespace SchemaCompare

/-- Code-unit lexicographic order on character lists: the order the default
JavaScript string sort uses. -/
def lexLe : List Char → List Char → Bool
  | [], _ => true
  | _ :: _, [] => false
  | a :: as, b :: bs =>
    if a.toNat < b.toNat then true
    else if b.toNat < a.toNat then false
    else lexLe as bs

/-- JS string comparison (boolean form). -/
def jsLe (s t : String) : Bool := lexLe s.data t.data

/-- JS string comparison as a relation, for use with the sorting library. -/
def strLe (s t : String) : Prop := jsLe s t = true

instance : DecidableRel strLe := fun s t => by
  unfold strLe; infer_instance

/-- The default JS `Array.prototype.sort()` on an array of strings. -/
def sortStrings (l : List String) : List String := List.insertionSort strLe l

/-- First-occurrence deduplication: the iteration order of a JS `Set`
constructed from an array, and of the keys of a JS `Map` constructed from a
key/value pair array. -/
def dedupFirst : List String → List String
  | [] => []
  | x :: xs => x :: (dedupFirst xs).filter (fun y => !(y == x))

/-- The keys of a JS `Map` built from the pair list, in iteration order. -/
def mapKeys (ps : List (String × String)) : List String :=
  dedupFirst (ps.map Prod.fst)

/-- The JS `Map.get`: the value of the last pair with the given key (later inserts
overwrite earlier ones), `none` when the key is absent. -/
def mapGet (ps : List (String × String)) (k : String) : Option String :=
  (ps.reverse.find? (fun p => p.1 == k)).map Prod.snd

/-- Whitespace characters removed by the JS `trim()` used in `normalize`:
the ECMAScript WhiteSpace set (TAB, VT, FF, SP, NBSP, ZWNBSP and the
Unicode Space_Separator category) together with the LineTerminator set
(LF, CR, LS, PS). -/
def isJsWhitespace (c : Char) : Bool :=
  c == ' ' || c == '\t' || c == '\n' || c == '\r' ||
  c == '\x0b' || c == '\x0c' ||
  c.toNat == 0xa0 || c.toNat == 0x1680 ||
  (0x2000 ≤ c.toNat && c.toNat ≤ 0x200a) ||
  c.toNat == 0x2028 || c.toNat == 0x2029 ||
  c.toNat == 0x202f || c.toNat == 0x205f ||
  c.toNat == 0x3000 || c.toNat == 0xfeff

/-- The JS `String.prototype.trim`: drop leading and trailing whitespace. -/
def jsTrim (s : String) : String :=
  ⟨((s.data.dropWhile isJsWhitespace).reverse.dropWhile isJsWhitespace).reverse⟩

/-- src/diff.js `normalize`: null and undefined become the empty string,
every other value its (string form) with surrounding whitespace trimmed. -/
def normalize : Option String → String
  | none => ""
  | some s => jsTrim s

/-! ### The data model: one record structure per snapshot category. -/

/-- A row of the `tables` sequence of a snapshot. -/
structure TableRec where
  table_name : String
deriving DecidableEq

/-- A row of the `columns` sequence of a snapshot; the eleven fields after
`column_name` are exactly those `compareColumnDetails` reads. -/
structure Column where
  table_name : String
  column_name : String
  data_type : Option String
  udt_name : Option String
  character_maximum_length : Option String
  numeric_precision : Option String
  numeric_scale : Option String
  is_nullable : Option String
  column_default : Option String
  is_identity : Option String
  identity_generation : Option String
  is_generated : Option String
  generation_expression : Option String
deriving DecidableEq

/-- A row of the `indexes` sequence of a snapshot. -/
structure IndexRec where
  tablename : String
  indexname : String
  indexdef : String
deriving DecidableEq

/-- A row of the `foreignKeys` sequence of a snapshot. -/
structure ForeignKeyRec where
  table_name : String
  constraint_name : String
  column_name : String
  foreign_table_name : String
  foreign_column_name : String
deriving DecidableEq

/-- A row of the `enums` sequence of a snapshot (one enum member per row). -/
structure EnumRec where
  enum_name : String
  enum_value : String
deriving DecidableEq

/-- A row of the `policies` sequence of a snapshot. -/
structure Policy where
  tablename : String
  policyname : String
  permissive : String
  roles : List String
  cmd : String
  qual : Option String
  with_check : Option String
deriving DecidableEq

/-- A row of the `functions` sequence of a snapshot. -/
structure FunctionRec where
  function_name : String
  arguments : String
  return_type : String
  kind : String
  security_definer : String
  language : String
deriving DecidableEq

/-- A row of the `triggers` sequence of a snapshot. -/
structure TriggerRec where
  event_object_table : String
  trigger_name : String
  event_manipulation : String
  action_statement : String
  action_timing : String
  action_orientation : String
deriving DecidableEq

/-- A schema snapshot: eight record sequences, any of them possibly empty. -/
structure Schema where
  tables : List TableRec
  columns : List Column
  indexes : List IndexRec
  foreignKeys : List ForeignKeyRec
  enums : List EnumRec
  policies : List Policy
  functions : List FunctionRec
  triggers : List TriggerRec
deriving DecidableEq

/-! ### The diff result shapes. -/

/-- The tables sub-result. -/
structure TablesDiff where
  onlyInA : List String
  onlyInB : List String
  common : List String
deriving DecidableEq

/-- A changed-list entry of a simple category: the JS object literal is kept
as an association list of field name / value pairs, so that which field
names the entry carries is part of the model. -/
abbrev ChangedEntry := List (String × String)

/-- A simple category sub-result (indexes, foreign keys, policies,
functions, triggers). -/
structure SimpleDiff where
  onlyInA : List String
  onlyInB : List String
  changed : List ChangedEntry
deriving DecidableEq

/-- One per-field difference reported for a column present in both
snapshots; carries the raw (un-normalized) values, as in the source. -/
structure FieldDiff where
  field : String
  valueA : Option String
  valueB : Option String
deriving DecidableEq

/-- A changed column of one table. -/
structure ColChanged where
  column : String
  differences : List FieldDiff
deriving DecidableEq

/-- The per-table part of the columns sub-result. -/
structure ColTableDiff where
  onlyInA : List String
  onlyInB : List String
  changed : List ColChanged
deriving DecidableEq

/-- A changed entry of the enums sub-result. -/
structure EnumChanged where
  name : String
  valuesA : List String
  valuesB : List String
deriving DecidableEq

/-- The enums sub-result. -/
structure EnumsDiff where
  onlyInA : List String
  onlyInB : List String
  changed : List EnumChanged
deriving DecidableEq

/-- The full diff result. The columns sub-result is a JS object keyed by
table name, modelled as an association list. -/
structure DiffResult where
  labelA : String
  labelB : String
  tables : TablesDiff
  columns : List (String × ColTableDiff)
  indexes : SimpleDiff
  foreignKeys : SimpleDiff
  enums : EnumsDiff
  policies : SimpleDiff
  functions : SimpleDiff
  triggers : SimpleDiff
deriving DecidableEq

/-! ### The diff engine (src/diff.js). -/

/-- Source `diffTables`: set difference and intersection of the table-name sets. -/
def diffTables (a b : Schema) : TablesDiff :=
  let namesA := dedupFirst (a.tables.map TableRec.table_name)
  let namesB := dedupFirst (b.tables.map TableRec.table_name)
  { onlyInA := sortStrings (namesA.filter (fun n => !(namesB.contains n)))
    onlyInB := sortStrings (namesB.filter (fun n => !(namesA.contains n)))
    common := sortStrings (namesA.filter (fun n => namesB.contains n)) }

/-- One unrolled iteration of the field loop of `compareColumnDetails`:
report the field when the normalized values differ, carrying the raw
values. -/
def fieldDiff (name : String) (va vb : Option String) : List FieldDiff :=
  if normalize va ≠ normalize vb then [⟨name, va, vb⟩] else []

/-- Source `compareColumnDetails`: the fixed field loop, unrolled in source
order. -/
def compareColumnDetails (a b : Column) : List FieldDiff :=
  fieldDiff "data_type" a.data_type b.data_type ++
  fieldDiff "udt_name" a.udt_name b.udt_name ++
  fieldDiff "character_maximum_length" a.character_maximum_length b.character_maximum_length ++
  fieldDiff "numeric_precision" a.numeric_precision b.numeric_precision ++
  fieldDiff "numeric_scale" a.numeric_scale b.numeric_scale ++
  fieldDiff "is_nullable" a.is_nullable b.is_nullable ++
  fieldDiff "column_default" a.column_default b.column_default ++
  fieldDiff "is_identity" a.is_identity b.is_identity ++
  fieldDiff "identity_generation" a.identity_generation b.identity_generation ++
  fieldDiff "is_generated" a.is_generated b.is_generated ++
  fieldDiff "generation_expression" a.generation_expression b.generation_expression

/-- The column records of one table, in sequence order. When the source
`groupBy` returns, it maps each table name to exactly the records with that
table name in order, and `mapA[table] || []` yields the empty list for a
table name with no records; both are this filter. A table name colliding
with an inherited `Object.prototype` property makes the source throw
instead (see `jsObjectGroupBy`): this total function and the diff built on
it describe the non-throwing executions. -/
def columnsOfTable (cols : List Column) (t : String) : List Column :=
  cols.filter (fun c => c.table_name == t)

/-- The per-table body of the `diffColumns` loop. The JS `for (const name
of colNamesA)` with `colsA.find(...)` compares the first record with a
given column name; `find` cannot miss for a name drawn from `colsA`, so
the `none` match arms are dead code. -/
def diffColumnsTable (colsA colsB : List Column) : ColTableDiff :=
  let colNamesA := dedupFirst (colsA.map Column.column_name)
  let colNamesB := dedupFirst (colsB.map Column.column_name)
  { onlyInA := colNamesA.filter (fun n => !(colNamesB.contains n))
    onlyInB := colNamesB.filter (fun n => !(colNamesA.contains n))
    changed := colNamesA.filterMap (fun n =>
      if colNamesB.contains n then
        match colsA.find? (fun c => c.column_name == n),
              colsB.find? (fun c => c.column_name == n) with
        | some cA, some cB =>
          let diffs := compareColumnDetails cA cB
          if diffs.isEmpty then none else some ⟨n, diffs⟩
        | _, _ => none
      else none) }

/-- Source `diffColumns` over the two column sequences: group by table name,
diff each observed table, and omit tables with no differences. Two source
behaviors are not modelled: the TypeError `groupBy` throws on a table name
colliding with an `Object.prototype` property (kept by `jsObjectGroupBy`
and settled separately), and the JS object key iteration fronting
integer-like table names in numeric order, which affects only the order of
the table keys of the result. -/
def diffColumnsLists (colsA colsB : List Column) : List (String × ColTableDiff) :=
  let tablesA := dedupFirst (colsA.map Column.table_name)
  let tablesB := dedupFirst (colsB.map Column.table_name)
  let allTables := dedupFirst (tablesA ++ tablesB)
  allTables.filterMap (fun t =>
    let d := diffColumnsTable (columnsOfTable colsA t) (columnsOfTable colsB t)
    if d.onlyInA.isEmpty && d.onlyInB.isEmpty && d.changed.isEmpty then none
    else some (t, d))

/-- Source `diffColumns`. -/
def diffColumns (a b : Schema) : List (String × ColTableDiff) :=
  diffColumnsLists a.columns b.columns

/-- The shared five-step keyed comparison used by `diffIndexes`,
`diffForeignKeys`, `diffPolicies`, `diffFunctions` and `diffTriggers`; the
routines differ only in their key/value derivations and in the two field
names their changed entries carry (`defA`/`defB` for indexes,
`signatureA`/`signatureB` for functions, `valueA`/`valueB` for the rest).
Keys present in both maps with distinct values yield a changed entry in
the key iteration order of the A map. `Map.get` is total on the filtered
keys, so the `getD ""` defaults are never taken. -/
def simpleKeyedDiff (fA fB : String) (pa pb : List (String × String)) : SimpleDiff :=
  let keysA := mapKeys pa
  let keysB := mapKeys pb
  { onlyInA := sortStrings (keysA.filter (fun k => !(keysB.contains k)))
    onlyInB := sortStrings (keysB.filter (fun k => !(keysA.contains k)))
    changed := (keysA.filter (fun k =>
        keysB.contains k && (mapGet pa k != mapGet pb k))).map
      (fun k => [("key", k), (fA, (mapGet pa k).getD ""),
                 (fB, (mapGet pb k).getD "")]) }

/-- Index identity key: `tablename::indexname`. -/
def idxKey (i : IndexRec) : String := i.tablename ++ "::" ++ i.indexname

/-- The key/value pairs `diffIndexes` feeds its maps. -/
def idxPairs (s : Schema) : List (String × String) :=
  s.indexes.map (fun i => (idxKey i, i.indexdef))

/-- Source `diffIndexes`. Its changed entries carry `defA`/`defB`. -/
def diffIndexes (a b : Schema) : SimpleDiff :=
  simpleKeyedDiff "defA" "defB" (idxPairs a) (idxPairs b)

/-- Foreign-key identity key: `table_name.constraint_name`. -/
def fkKey (f : ForeignKeyRec) : String := f.table_name ++ "." ++ f.constraint_name

/-- Foreign-key comparison value: `column->foreign_table.foreign_column`. -/
def fkVal (f : ForeignKeyRec) : String :=
  f.column_name ++ "->" ++ f.foreign_table_name ++ "." ++ f.foreign_column_name

/-- The key/value pairs `diffForeignKeys` feeds its maps. -/
def fkPairs (s : Schema) : List (String × String) :=
  s.foreignKeys.map (fun f => (fkKey f, fkVal f))

/-- Source `diffForeignKeys`. Its changed entries carry `valueA`/`valueB`. -/
def diffForeignKeys (a b : Schema) : SimpleDiff :=
  simpleKeyedDiff "valueA" "valueB" (fkPairs a) (fkPairs b)

/-- The member values recorded for one enum type name, in sequence order
(the per-name array the `buildMap` of `diffEnums` accumulates when it
returns; an enum name colliding with an inherited `Object.prototype`
property makes `buildMap` throw instead, see `jsObjectGroupBy`). -/
def enumValuesOf (es : List EnumRec) (n : String) : List String :=
  (es.filter (fun e => e.enum_name == n)).map EnumRec.enum_value

/-- Source `diffEnums`: name-keyed; a name present on both sides is changed when
the two sorted value sequences differ (the source compares their
`JSON.stringify` forms, which on string arrays is array equality). -/
def diffEnums (a b : Schema) : EnumsDiff :=
  let namesA := dedupFirst (a.enums.map EnumRec.enum_name)
  let namesB := dedupFirst (b.enums.map EnumRec.enum_name)
  { onlyInA := sortStrings (namesA.filter (fun n => !(namesB.contains n)))
    onlyInB := sortStrings (namesB.filter (fun n => !(namesA.contains n)))
    changed := namesA.filterMap (fun n =>
      if namesB.contains n then
        let valsA := sortStrings (enumValuesOf a.enums n)
        let valsB := sortStrings (enumValuesOf b.enums n)
        if valsA == valsB then none else some ⟨n, valsA, valsB⟩
      else none) }

/-- Policy identity key: `tablename::policyname`. -/
def polKey (p : Policy) : String := p.tablename ++ "::" ++ p.policyname

/-- JSON string serialization as `JSON.stringify` produces it: quoted, with
backslash and double quote escaped. JSON additionally escapes control
characters, which never makes distinct inputs collide, so the encoding is
injective either way. -/
def jsonStr (s : String) : String :=
  "\"" ++ ⟨s.data.foldr (fun c acc =>
    if c == '\\' || c == '"' then '\\' :: c :: acc else c :: acc) []⟩ ++ "\""

/-- JSON serialization of a nullable string field: null stays the JSON
literal `null`, distinct from every quoted string. -/
def jsonNullable : Option String → String
  | none => "null"
  | some s => jsonStr s

/-- JSON serialization of an array of strings. -/
def jsonStrArr (l : List String) : String :=
  "[" ++ String.intercalate "," (l.map jsonStr) ++ "]"

/-- Policy comparison value: `JSON.stringify` of the record with fields
permissive, roles, cmd, qual, with_check in that order. -/
def polVal (p : Policy) : String :=
  "\x7b\"permissive\":" ++ jsonStr p.permissive ++
  ",\"roles\":" ++ jsonStrArr p.roles ++
  ",\"cmd\":" ++ jsonStr p.cmd ++
  ",\"qual\":" ++ jsonNullable p.qual ++
  ",\"with_check\":" ++ jsonNullable p.with_check ++ "\x7d"

/-- The key/value pairs `diffPolicies` feeds its maps. -/
def polPairs (s : Schema) : List (String × String) :=
  s.policies.map (fun p => (polKey p, polVal p))

/-- Source `diffPolicies`. Its changed entries carry `valueA`/`valueB`. -/
def diffPolicies (a b : Schema) : SimpleDiff :=
  simpleKeyedDiff "valueA" "valueB" (polPairs a) (polPairs b)

/-- Function identity key: `name(arguments)`. -/
def funKey (f : FunctionRec) : String := f.function_name ++ "(" ++ f.arguments ++ ")"

/-- Function comparison value: `JSON.stringify` of the record with fields
return_type, kind, security_definer, language in that order. -/
def funVal (f : FunctionRec) : String :=
  "\x7b\"return_type\":" ++ jsonStr f.return_type ++
  ",\"kind\":" ++ jsonStr f.kind ++
  ",\"security_definer\":" ++ jsonStr f.security_definer ++
  ",\"language\":" ++ jsonStr f.language ++ "\x7d"

/-- The key/value pairs `diffFunctions` feeds its maps. -/
def funPairs (s : Schema) : List (String × String) :=
  s.functions.map (fun f => (funKey f, funVal f))

/-- Source `diffFunctions`. Its changed entries carry `signatureA`/`signatureB`. -/
def diffFunctions (a b : Schema) : SimpleDiff :=
  simpleKeyedDiff "signatureA" "signatureB" (funPairs a) (funPairs b)

/-- Trigger identity key: `table::trigger::event`. -/
def trgKey (t : TriggerRec) : String :=
  t.event_object_table ++ "::" ++ t.trigger_name ++ "::" ++ t.event_manipulation

/-- Trigger comparison value: `JSON.stringify` of the record with fields
action_statement, action_timing, action_orientation in that order. -/
def trgVal (t : TriggerRec) : String :=
  "\x7b\"action_statement\":" ++ jsonStr t.action_statement ++
  ",\"action_timing\":" ++ jsonStr t.action_timing ++
  ",\"action_orientation\":" ++ jsonStr t.action_orientation ++ "\x7d"

/-- The key/value pairs `diffTriggers` feeds its maps. -/
def trgPairs (s : Schema) : List (String × String) :=
  s.triggers.map (fun t => (trgKey t, trgVal t))

/-- Source `diffTriggers`. Its changed entries carry `valueA`/`valueB`. -/
def diffTriggers (a b : Schema) : SimpleDiff :=
  simpleKeyedDiff "valueA" "valueB" (trgPairs a) (trgPairs b)

/-- Source `diffSchemas`: the orchestrator. The source gives the labels default
values; the defaults play no role in the comparison, so the labels are
plain parameters here. -/
def diffSchemas (a b : Schema) (labelA labelB : String) : DiffResult :=
  { labelA := labelA
    labelB := labelB
    tables := diffTables a b
    columns := diffColumns a b
    indexes := diffIndexes a b
    foreignKeys := diffForeignKeys a b
    enums := diffEnums a b
    policies := diffPolicies a b
    functions := diffFunctions a b
    triggers := diffTriggers a b }

/-! ### The plain-object grouping of the source, error path included.

`groupBy` (and the `buildMap` of `diffEnums`) runs
`if (!result[key]) result[key] = []; result[key].push(item)` on a plain
JS object. Reading `result[key]` falls back to the prototype chain: for a
key that names an `Object.prototype` property the read yields the
inherited function (for `__proto__`, the prototype object) — truthy and
without a `push` method — so the guard skips the initializer and the
`push` call throws a TypeError. -/

/-- The property names a plain object inherits from `Object.prototype`. -/
def objectPrototypeKeys : List String :=
  ["constructor", "hasOwnProperty", "isPrototypeOf", "propertyIsEnumerable",
   "toLocaleString", "toString", "valueOf", "__proto__",
   "__defineGetter__", "__defineSetter__", "__lookupGetter__",
   "__lookupSetter__"]

/-- One iteration of the source grouping loop on the accumulated own
properties: append to an existing own array, throw (`none`) on an inherited
`Object.prototype` key, otherwise create a fresh singleton own property. -/
def jsObjectGroupStep {α : Type} (acc : List (String × List α)) (k : String)
    (item : α) : Option (List (String × List α)) :=
  if (acc.map Prod.fst).contains k then
    some (acc.map (fun p => if p.1 == k then (p.1, p.2 ++ [item]) else p))
  else if objectPrototypeKeys.contains k then
    none
  else
    some (acc ++ [(k, [item])])

/-- The source `groupBy` (and the `buildMap` of `diffEnums`) with the
plain-object semantics kept: `none` is the thrown TypeError. On inputs
whose keys avoid `objectPrototypeKeys` it succeeds and groups like
`columnsOfTable` / `enumValuesOf`. -/
def jsObjectGroupBy {α : Type} (key : α → String) :
    List α → List (String × List α) → Option (List (String × List α))
  | [], acc => some acc
  | item :: rest, acc =>
    match jsObjectGroupStep acc (key item) item with
    | none => none
    | some acc2 => jsObjectGroupBy key rest acc2

/-! ### The stats aggregator (src/report-terminal.js `computeStats`). -/

/-- The flat stats record. -/
structure Stats where
  tablesOnlyA : Nat
  tablesOnlyB : Nat
  tablesCommon : Nat
  columnsOnlyA : Nat
  columnsOnlyB : Nat
  columnsChanged : Nat
  indexesOnlyA : Nat
  indexesOnlyB : Nat
  indexesChanged : Nat
  fksOnlyA : Nat
  fksOnlyB : Nat
  fksChanged : Nat
  enumsOnlyA : Nat
  enumsOnlyB : Nat
  enumsChanged : Nat
  policiesOnlyA : Nat
  policiesOnlyB : Nat
  policiesChanged : Nat
  functionsOnlyA : Nat
  functionsOnlyB : Nat
  functionsChanged : Nat
  triggersOnlyA : Nat
  triggersOnlyB : Nat
  triggersChanged : Nat
deriving DecidableEq

/-- Source `computeStats`: the reporter accumulates the three column counters in a
loop over the table entries of the columns sub-result, and reads lengths
for everything else. -/
def computeStats (d : DiffResult) : Stats :=
  let acc := d.columns.foldl
    (fun (acc : Nat × Nat × Nat) p =>
      (acc.1 + p.2.onlyInA.length, acc.2.1 + p.2.onlyInB.length,
       acc.2.2 + p.2.changed.length))
    (0, 0, 0)
  { tablesOnlyA := d.tables.onlyInA.length
    tablesOnlyB := d.tables.onlyInB.length
    tablesCommon := d.tables.common.length
    columnsOnlyA := acc.1
    columnsOnlyB := acc.2.1
    columnsChanged := acc.2.2
    indexesOnlyA := d.indexes.onlyInA.length
    indexesOnlyB := d.indexes.onlyInB.length
    indexesChanged := d.indexes.changed.length
    fksOnlyA := d.foreignKeys.onlyInA.length
    fksOnlyB := d.foreignKeys.onlyInB.length
    fksChanged := d.foreignKeys.changed.length
    enumsOnlyA := d.enums.onlyInA.length
    enumsOnlyB := d.enums.onlyInB.length
    enumsChanged := d.enums.changed.length
    policiesOnlyA := d.policies.onlyInA.length
    policiesOnlyB := d.policies.onlyInB.length
    policiesChanged := d.policies.changed.length
    functionsOnlyA := d.functions.onlyInA.length
    functionsOnlyB := d.functions.onlyInB.length
    functionsChanged := d.functions.changed.length
    triggersOnlyA := d.triggers.onlyInA.length
    triggersOnlyB := d.triggers.onlyInB.length
    triggersChanged := d.triggers.changed.length }

/-! ### Order facts about the JS string comparison. -/

theorem lexLe_total : ∀ as bs : List Char, lexLe as bs = true ∨ lexLe bs as = true
  | [], _ => Or.inl rfl
  | _ :: _, [] => Or.inr rfl
  | a :: as, b :: bs => by
    by_cases h1 : a.toNat < b.toNat
    · left; simp [lexLe, h1]
    · by_cases h2 : b.toNat < a.toNat
      · right; simp [lexLe, h2]
      · rcases lexLe_total as bs with ih | ih
        · left; simp [lexLe, h1, h2, ih]
        · right; simp [lexLe, h1, h2, ih]

theorem lexLe_trans : ∀ as bs cs : List Char,
    lexLe as bs = true → lexLe bs cs = true → lexLe as cs = true
  | [], _, _ => by intro _ _; rfl
  | _ :: _, [], _ => by intro h _; simp [lexLe] at h
  | _ :: _, _ :: _, [] => by intro _ h; simp [lexLe] at h
  | a :: as, b :: bs, c :: cs => by
    intro h1 h2
    by_cases hab : a.toNat < b.toNat
    · by_cases hbc : b.toNat < c.toNat
      · simp [lexLe, Nat.lt_trans hab hbc]
      · by_cases hcb : c.toNat < b.toNat
        · simp [lexLe, hbc, hcb] at h2
        · have : a.toNat < c.toNat := by omega
          simp [lexLe, this]
    · by_cases hba : b.toNat < a.toNat
      · simp [lexLe, hab, hba] at h1
      · have hab' : a.toNat = b.toNat := by omega
        simp only [lexLe, if_neg hab, if_neg hba] at h1
        by_cases hbc : b.toNat < c.toNat
        · have : a.toNat < c.toNat := by omega
          simp [lexLe, this]
        · by_cases hcb : c.toNat < b.toNat
          · simp [lexLe, hbc, hcb] at h2
          · simp only [lexLe, if_neg hbc, if_neg hcb] at h2
            have hac : ¬ a.toNat < c.toNat := by omega
            have hca : ¬ c.toNat < a.toNat := by omega
            simp only [lexLe, if_neg hac, if_neg hca]
            exact lexLe_trans as bs cs h1 h2

theorem lexLe_antisymm : ∀ as bs : List Char,
    lexLe as bs = true → lexLe bs as = true → as = bs
  | [], [] => by intro _ _; rfl
  | [], _ :: _ => by intro _ h; simp [lexLe] at h
  | _ :: _, [] => by intro h _; simp [lexLe] at h
  | a :: as, b :: bs => by
    intro h1 h2
    by_cases hab : a.toNat < b.toNat
    · simp [lexLe, hab, Nat.lt_asymm hab, Nat.lt_irrefl] at h2
    · by_cases hba : b.toNat < a.toNat
      · simp [lexLe, hab, hba] at h1
      · have hn : a.toNat = b.toNat := by omega
        have heq : a = b := Char.ext (UInt32.ext hn)
        simp only [lexLe, if_neg hab, if_neg hba] at h1 h2
        rw [heq, lexLe_antisymm as bs h1 h2]

instance : IsTotal String strLe := ⟨fun a b => lexLe_total a.data b.data⟩

instance : IsTrans String strLe := ⟨fun a b c => lexLe_trans a.data b.data c.data⟩

instance : IsAntisymm String strLe :=
  ⟨fun a b h1 h2 => by
    cases a; cases b
    exact congrArg String.mk (lexLe_antisymm _ _ h1 h2)⟩

theorem sortStrings_sorted (l : List String) : List.Sorted strLe (sortStrings l) :=
  List.sorted_insertionSort strLe l

theorem sortStrings_perm (l : List String) : List.Perm (sortStrings l) l :=
  List.perm_insertionSort strLe l

theorem sortStrings_nodup {l : List String} (h : l.Nodup) : (sortStrings l).Nodup :=
  (sortStrings_perm l).nodup_iff.mpr h

theorem mem_sortStrings {a : String} {l : List String} :
    a ∈ sortStrings l ↔ a ∈ l :=
  (sortStrings_perm l).mem_iff

theorem count_sortStrings (a : String) (l : List String) :
    (sortStrings l).count a = l.count a :=
  (sortStrings_perm l).count_eq a

/-- Sorted permuted lists are equal: two value multisets are equal exactly
when their JS sorts are equal. -/
theorem sortStrings_eq_iff_perm {l r : List String} :
    sortStrings l = sortStrings r ↔ List.Perm l r := by
  constructor
  · intro h
    exact ((sortStrings_perm l).symm.trans (h ▸ sortStrings_perm r))
  · intro h
    exact List.eq_of_perm_of_sorted
      (((sortStrings_perm l).trans h).trans (sortStrings_perm r).symm)
      (sortStrings_sorted l) (sortStrings_sorted r)

/-! ### Facts about first-occurrence deduplication. -/

theorem mem_dedupFirst {a : String} : ∀ {l : List String}, a ∈ dedupFirst l ↔ a ∈ l
  | [] => Iff.rfl
  | x :: xs => by
    simp only [dedupFirst, List.mem_cons, List.mem_filter]
    by_cases hax : a = x
    · simp [hax]
    · simp [hax, mem_dedupFirst (l := xs)]

theorem nodup_dedupFirst : ∀ l : List String, (dedupFirst l).Nodup
  | [] => List.nodup_nil
  | x :: xs => by
    refine List.nodup_cons.mpr ⟨?_, (nodup_dedupFirst xs).filter _⟩
    intro hmem
    rcases List.mem_filter.mp hmem with ⟨-, hne⟩
    simp at hne

theorem dedupFirst_filter (p : String → Bool) :
    ∀ l : List String, dedupFirst (l.filter p) = (dedupFirst l).filter p
  | [] => rfl
  | x :: xs => by
    by_cases hx : p x
    · simp only [List.filter_cons, hx, if_pos, dedupFirst,
        dedupFirst_filter p xs, List.filter_filter]
      rw [List.filter_congr]
      intro y _
      rw [Bool.and_comm]
    · simp only [List.filter_cons, hx, dedupFirst, dedupFirst_filter p xs,
        List.filter_filter, Bool.false_eq_true, if_false]
      rw [List.filter_congr]
      intro y hy
      by_cases hyx : y = x
      · subst hyx
        simp [mem_dedupFirst] at hy
        simp [hx]
      · simp [hyx]

theorem dedupFirst_cons (x : String) (xs : List String) :
    dedupFirst (x :: xs) = x :: (dedupFirst xs).filter (fun y => !(y == x)) := rfl

theorem dedupFirst_append : ∀ l r : List String,
    dedupFirst (l ++ r) = dedupFirst l ++ dedupFirst (r.filter (fun y => !(l.contains y)))
  | [], r => by
    have hr : r.filter (fun y => !(([] : List String).contains y)) = r := by
      apply List.filter_eq_self.mpr
      intro a _
      rfl
    rw [List.nil_append, hr]
    rfl
  | x :: xs, r => by
    rw [List.cons_append, dedupFirst_cons, dedupFirst_append xs r, List.filter_append,
      dedupFirst_cons, List.cons_append]
    congr 1
    congr 1
    rw [← dedupFirst_filter, List.filter_filter]
    congr 1
    apply List.filter_congr
    intro y _
    show ((!(y == x)) && !(xs.contains y)) = !((x :: xs).contains y)
    have hc : ((x :: xs).contains y) = (y == x || xs.contains y) := rfl
    rw [hc]
    cases hyx : (y == x) <;> cases hxs : xs.contains y <;> rfl

/-- Dropping a later duplicate from the first-occurrence deduplication
changes nothing. -/
theorem dedupFirst_middle {x : String} {l : List String} (r : List String)
    (h : x ∈ l) : dedupFirst (l ++ x :: r) = dedupFirst (l ++ r) := by
  rw [dedupFirst_append, dedupFirst_append]
  have hx : ((x :: r).filter (fun y => !(l.contains y))) =
      r.filter (fun y => !(l.contains y)) := by
    rw [List.filter_cons]
    simp [h]
  rw [hx]

/-! ### Generic facts about membership filters. -/

theorem filter_not_contains_self (l : List String) :
    l.filter (fun n => !(l.contains n)) = [] := by
  apply List.filter_eq_nil_iff.mpr
  intro a ha
  simp [ha]

theorem filter_contains_self (l : List String) :
    l.filter (fun n => l.contains n) = l := by
  apply List.filter_eq_self.mpr
  intro a ha
  simp [ha]

/-! ### Facts about the JS map model. -/

theorem mapGet_isSome {ps : List (String × String)} {k : String}
    (h : k ∈ mapKeys ps) : ∃ v, mapGet ps k = some v := by
  have hk : k ∈ ps.map Prod.fst := mem_dedupFirst.mp h
  rcases List.mem_map.mp hk with ⟨p, hp, hfst⟩
  have : (ps.reverse.find? (fun q => q.1 == k)).isSome := by
    apply List.find?_isSome.mpr
    exact ⟨p, List.mem_reverse.mpr hp, by simp [hfst]⟩
  rcases Option.isSome_iff_exists.mp this with ⟨q, hq⟩
  exact ⟨q.2, by simp [mapGet, hq]⟩

/-- Last write wins: the value the map holds for a key is the one of the
last pair with that key. -/
theorem mapGet_append_last (pre post : List (String × String)) (k v : String)
    (h : k ∉ post.map Prod.fst) :
    mapGet (pre ++ (k, v) :: post) k = some v := by
  unfold mapGet
  rw [List.reverse_append, List.reverse_cons, List.append_assoc]
  rw [List.find?_append]
  have hnone : post.reverse.find? (fun q => q.1 == k) = none := by
    apply List.find?_eq_none.mpr
    intro q hq
    simp only [beq_iff_eq]
    intro hqk
    exact h (List.mem_map.mpr ⟨q, List.mem_reverse.mp hq, hqk⟩)
  rw [hnone]
  simp

/-- Boolean counting congruence over a list. -/
theorem countP_congr_on {l : List String} {p q : String → Bool}
    (h : ∀ a ∈ l, p a = q a) : l.countP p = l.countP q := by
  induction l with
  | nil => rfl
  | cons x xs ih =>
    rw [List.countP_cons, List.countP_cons, h x (by simp),
      ih (fun a ha => h a (by simp [ha]))]

/-! ### Facts about the shared keyed comparison. -/

/-- Comparing a key/value pair list with itself leaves nothing. -/
theorem simpleKeyedDiff_self (fA fB : String) (p : List (String × String)) :
    simpleKeyedDiff fA fB p p = ⟨[], [], []⟩ := by
  simp only [simpleKeyedDiff]
  rw [filter_not_contains_self]
  have hch : (mapKeys p).filter
      (fun k => (mapKeys p).contains k && (mapGet p k != mapGet p k)) = [] := by
    apply List.filter_eq_nil_iff.mpr
    intro k _
    simp
  rw [hch]
  rfl

/-- The shape of every changed entry the shared routine produces: the three
fields are `key`, then the A field name with the A map value, then the B
field name with the B map value, and the two values differ. -/
theorem simpleKeyedDiff_changed_shape (fA fB : String)
    (pa pb : List (String × String)) :
    ∀ e ∈ (simpleKeyedDiff fA fB pa pb).changed, ∃ k vA vB,
      mapGet pa k = some vA ∧ mapGet pb k = some vB ∧ vA ≠ vB ∧
      e = [("key", k), (fA, vA), (fB, vB)] := by
  intro e he
  simp only [simpleKeyedDiff] at he
  rcases List.mem_map.mp he with ⟨k, hk, rfl⟩
  rcases List.mem_filter.mp hk with ⟨hka, hcond⟩
  rcases (Bool.and_eq_true _ _) ▸ hcond with ⟨hkb, hne⟩
  rcases mapGet_isSome hka with ⟨vA, hvA⟩
  rcases mapGet_isSome (List.mem_of_elem_eq_true hkb) with ⟨vB, hvB⟩
  refine ⟨k, vA, vB, hvA, hvB, ?_, by rw [hvA, hvB]; rfl⟩
  intro hcontra
  rw [hvA, hvB, hcontra] at hne
  simp at hne

/-- How many times one key shows up across the three output sequences of a
simple category sub-result. -/
def keyOccurrences (d : SimpleDiff) (k : String) : Nat :=
  d.onlyInA.count k + d.onlyInB.count k +
  d.changed.countP (fun e => e.head? == some ("key", k))

/-- A key shows up at most once in the whole output of the shared
routine. -/
theorem keyOccurrences_le_one (fA fB : String) (pa pb : List (String × String))
    (k : String) : keyOccurrences (simpleKeyedDiff fA fB pa pb) k ≤ 1 := by
  unfold keyOccurrences
  simp only [simpleKeyedDiff]
  have hchanged : (((mapKeys pa).filter
        (fun k0 => (mapKeys pb).contains k0 && (mapGet pa k0 != mapGet pb k0))).map
        (fun k0 => [("key", k0), (fA, (mapGet pa k0).getD ""),
          (fB, (mapGet pb k0).getD "")])).countP
        (fun e => e.head? == some ("key", k)) =
      ((mapKeys pa).filter
        (fun k0 => (mapKeys pb).contains k0 && (mapGet pa k0 != mapGet pb k0))).count k := by
    rw [List.countP_map]
    apply countP_congr_on
    intro k0 _
    show (some ("key", k0) == some ("key", k)) = (k0 == k)
    cases hkk : (k0 == k)
    · have : k0 ≠ k := by simpa using hkk
      simp [this]
    · have : k0 = k := by simpa using hkk
      simp [this]
  rw [hchanged, count_sortStrings, count_sortStrings]
  by_cases hka : k ∈ mapKeys pa
  · have hB0 : ((mapKeys pb).filter (fun k0 => !((mapKeys pa).contains k0))).count k = 0 := by
      apply List.count_eq_zero.mpr
      intro hmem
      rcases List.mem_filter.mp hmem with ⟨-, hnc⟩
      simp at hnc
      exact hnc hka
    rw [hB0]
    by_cases hkb : (mapKeys pb).contains k = true
    · have hA0 : ((mapKeys pa).filter (fun k0 => !((mapKeys pb).contains k0))).count k = 0 := by
        apply List.count_eq_zero.mpr
        intro hmem
        rcases List.mem_filter.mp hmem with ⟨-, hnc⟩
        simp at hnc
        exact hnc (List.mem_of_elem_eq_true hkb)
      rw [hA0]
      have := List.Sublist.count_le (List.filter_sublist (l := mapKeys pa)
        (p := fun k0 => (mapKeys pb).contains k0 && (mapGet pa k0 != mapGet pb k0))) k
      have hle : (mapKeys pa).count k ≤ 1 :=
        List.nodup_iff_count_le_one.mp (nodup_dedupFirst (pa.map Prod.fst)) k
      omega
    · have hC0 : ((mapKeys pa).filter
          (fun k0 => (mapKeys pb).contains k0 && (mapGet pa k0 != mapGet pb k0))).count k = 0 := by
        apply List.count_eq_zero.mpr
        intro hmem
        rcases List.mem_filter.mp hmem with ⟨-, hc⟩
        rcases (Bool.and_eq_true _ _) ▸ hc with ⟨hc1, -⟩
        exact hkb hc1
      rw [hC0]
      have := List.Sublist.count_le (List.filter_sublist (l := mapKeys pa)
        (p := fun k0 => !((mapKeys pb).contains k0))) k
      have hle : (mapKeys pa).count k ≤ 1 :=
        List.nodup_iff_count_le_one.mp (nodup_dedupFirst (pa.map Prod.fst)) k
      omega
  · have hA0 : ((mapKeys pa).filter (fun k0 => !((mapKeys pb).contains k0))).count k = 0 := by
      apply List.count_eq_zero.mpr
      intro hmem
      exact hka (List.mem_of_mem_filter hmem)
    have hC0 : ((mapKeys pa).filter
        (fun k0 => (mapKeys pb).contains k0 && (mapGet pa k0 != mapGet pb k0))).count k = 0 := by
      apply List.count_eq_zero.mpr
      intro hmem
      exact hka (List.mem_of_mem_filter hmem)
    rw [hA0, hC0]
    have := List.Sublist.count_le (List.filter_sublist (l := mapKeys pb)
      (p := fun k0 => !((mapKeys pa).contains k0))) k
    have hle : (mapKeys pb).count k ≤ 1 :=
      List.nodup_iff_count_le_one.mp (nodup_dedupFirst (pb.map Prod.fst)) k
    omega

/-! ### Facts about the column diff. -/

/-- A column compared with itself reports no field difference. -/
theorem compareColumnDetails_self (c : Column) : compareColumnDetails c c = [] := by
  simp [compareColumnDetails, fieldDiff]

/-- A table compared with itself reports nothing. -/
theorem diffColumnsTable_self (c : List Column) : diffColumnsTable c c = ⟨[], [], []⟩ := by
  simp only [diffColumnsTable]
  rw [filter_not_contains_self]
  refine congrArg (ColTableDiff.mk [] []) ?_
  apply List.filterMap_eq_nil_iff.mpr
  intro n _
  by_cases hcon : (dedupFirst (c.map Column.column_name)).contains n
  · rw [if_pos hcon]
    cases hf : c.find? (fun col => col.column_name == n) with
    | none => rfl
    | some cA => simp [compareColumnDetails_self]
  · rw [if_neg hcon]

/-- The column diff of two equal column sequences is empty. -/
theorem diffColumnsLists_self (c : List Column) : diffColumnsLists c c = [] := by
  unfold diffColumnsLists
  apply List.filterMap_eq_nil_iff.mpr
  intro t _
  simp [diffColumnsTable_self]

/-! ### A name-keyed filter fact for filterMap producers. -/

/-- When a partial producer stamps every output with the input it came from
and inputs never repeat, filtering the outputs by one name keeps exactly
the producer output at that name. -/
theorem filterMap_filter_name {α : Type} (g : α → String) (f : String → Option α)
    (hf : ∀ n e, f n = some e → g e = n) :
    ∀ l : List String, l.Nodup → ∀ n,
      (l.filterMap f).filter (fun e => g e == n) =
        if n ∈ l then (f n).toList else [] := by
  intro l
  induction l with
  | nil => intro _ n; simp
  | cons x xs ih =>
    intro hnd n
    rcases List.nodup_cons.mp hnd with ⟨hx, hxs⟩
    rw [List.filterMap_cons]
    cases hfx : f x with
    | none =>
      rw [ih hxs n]
      by_cases hnx : n = x
      · subst hnx
        simp [hx, hfx]
      · simp [hnx]
    | some e =>
      have hge : g e = x := hf x e hfx
      rw [List.filter_cons]
      by_cases hnx : n = x
      · subst hnx
        have hpos : (g e == n) = true := by simp [hge]
        rw [if_pos hpos, ih hxs n]
        simp [hfx, hx]
      · have hneg : (g e == n) = false := by
          rw [hge]
          exact beq_eq_false_iff_ne.mpr (fun h => hnx h.symm)
        rw [if_neg (by simp [hneg]), ih hxs n]
        simp [hnx]

/-! ### Helper lemmas for the field-membership claim. -/

theorem mem_field_append (m : String) (l1 l2 : List FieldDiff) :
    (∃ d ∈ l1 ++ l2, d.field = m) ↔
      (∃ d ∈ l1, d.field = m) ∨ (∃ d ∈ l2, d.field = m) := by
  constructor
  · rintro ⟨d, hd, hf⟩
    rcases List.mem_append.mp hd with h | h
    · exact Or.inl ⟨d, h, hf⟩
    · exact Or.inr ⟨d, h, hf⟩
  · rintro (⟨d, hd, hf⟩ | ⟨d, hd, hf⟩)
    · exact ⟨d, List.mem_append.mpr (Or.inl hd), hf⟩
    · exact ⟨d, List.mem_append.mpr (Or.inr hd), hf⟩

theorem mem_fieldDiff_iff (m n : String) (va vb : Option String) :
    (∃ d ∈ fieldDiff n va vb, d.field = m) ↔
      (m = n ∧ normalize va ≠ normalize vb) := by
  unfold fieldDiff
  by_cases h : normalize va ≠ normalize vb
  · rw [if_pos h]
    simp [h, eq_comm]
  · rw [if_neg h]
    simp [h]

/-! ### A helper for the stats fold. -/

theorem foldl_triple (l : List (String × ColTableDiff)) :
    ∀ i : Nat × Nat × Nat,
      l.foldl (fun acc p => (acc.1 + p.2.onlyInA.length,
        acc.2.1 + p.2.onlyInB.length, acc.2.2 + p.2.changed.length)) i =
      (i.1 + (l.map (fun p => p.2.onlyInA.length)).sum,
       i.2.1 + (l.map (fun p => p.2.onlyInB.length)).sum,
       i.2.2 + (l.map (fun p => p.2.changed.length)).sum) := by
  induction l with
  | nil => intro i; simp
  | cons x xs ih =>
    intro i
    rw [List.foldl_cons, ih]
    simp only [List.map_cons, List.sum_cons, Prod.mk.injEq]
    refine ⟨?_, ?_, ?_⟩ <;> omega

/-! ### The claims. -/

/-- The intended no-throw behavior holds of the diff model once the
plain-object defect is collapsed: every category whose record sequence is
empty in both snapshots yields an empty sub-result, and the columns
sub-result then has no table keys (supporting evidence that the spec is
the intent and the thrown TypeError a slip of the code). -/
theorem diffSchemas_empty_sections (a b : Schema) (la lb : String) :
    (a.tables = [] → b.tables = [] →
      (diffSchemas a b la lb).tables = ⟨[], [], []⟩) ∧
    (a.columns = [] → b.columns = [] → (diffSchemas a b la lb).columns = []) ∧
    (a.indexes = [] → b.indexes = [] →
      (diffSchemas a b la lb).indexes = ⟨[], [], []⟩) ∧
    (a.foreignKeys = [] → b.foreignKeys = [] →
      (diffSchemas a b la lb).foreignKeys = ⟨[], [], []⟩) ∧
    (a.enums = [] → b.enums = [] →
      (diffSchemas a b la lb).enums = ⟨[], [], []⟩) ∧
    (a.policies = [] → b.policies = [] →
      (diffSchemas a b la lb).policies = ⟨[], [], []⟩) ∧
    (a.functions = [] → b.functions = [] →
      (diffSchemas a b la lb).functions = ⟨[], [], []⟩) ∧
    (a.triggers = [] → b.triggers = [] →
      (diffSchemas a b la lb).triggers = ⟨[], [], []⟩) := by
  refine ⟨?_, ?_, ?_, ?_, ?_, ?_, ?_, ?_⟩ <;> intro h1 h2
  · show diffTables a b = ⟨[], [], []⟩
    unfold diffTables
    rw [h1, h2]
    rfl
  · show diffColumnsLists a.columns b.columns = []
    rw [h1, h2]
    rfl
  · show simpleKeyedDiff "defA" "defB" (idxPairs a) (idxPairs b) = ⟨[], [], []⟩
    unfold idxPairs
    rw [h1, h2]
    rfl
  · show simpleKeyedDiff "valueA" "valueB" (fkPairs a) (fkPairs b) = ⟨[], [], []⟩
    unfold fkPairs
    rw [h1, h2]
    rfl
  · show diffEnums a b = ⟨[], [], []⟩
    unfold diffEnums
    rw [h1, h2]
    rfl
  · show simpleKeyedDiff "valueA" "valueB" (polPairs a) (polPairs b) = ⟨[], [], []⟩
    unfold polPairs
    rw [h1, h2]
    rfl
  · show simpleKeyedDiff "signatureA" "signatureB" (funPairs a) (funPairs b) = ⟨[], [], []⟩
    unfold funPairs
    rw [h1, h2]
    rfl
  · show simpleKeyedDiff "valueA" "valueB" (trgPairs a) (trgPairs b) = ⟨[], [], []⟩
    unfold trgPairs
    rw [h1, h2]
    rfl

/-- The intended self-diff behavior holds of the diff model once the
plain-object defect is collapsed: diffing a snapshot against itself leaves
every category empty, the columns sub-result has no table keys, and
`tables.common` is the sorted set of distinct table names (supporting
evidence that the symmetry-of-emptiness property of the spec is the intent
and the thrown TypeError a slip of the code). -/
theorem diffSchemas_self_empty (s : Schema) (la lb : String) :
    (diffSchemas s s la lb).tables =
      ⟨[], [], sortStrings (dedupFirst (s.tables.map TableRec.table_name))⟩ ∧
    (diffSchemas s s la lb).columns = [] ∧
    (diffSchemas s s la lb).indexes = ⟨[], [], []⟩ ∧
    (diffSchemas s s la lb).foreignKeys = ⟨[], [], []⟩ ∧
    (diffSchemas s s la lb).enums = ⟨[], [], []⟩ ∧
    (diffSchemas s s la lb).policies = ⟨[], [], []⟩ ∧
    (diffSchemas s s la lb).functions = ⟨[], [], []⟩ ∧
    (diffSchemas s s la lb).triggers = ⟨[], [], []⟩ := by
  refine ⟨?_, ?_, ?_, ?_, ?_, ?_, ?_, ?_⟩
  · show diffTables s s = _
    simp only [diffTables]
    rw [filter_not_contains_self, filter_contains_self]
    rfl
  · exact diffColumnsLists_self s.columns
  · exact simpleKeyedDiff_self _ _ _
  · exact simpleKeyedDiff_self _ _ _
  · show diffEnums s s = ⟨[], [], []⟩
    simp only [diffEnums]
    rw [filter_not_contains_self]
    refine congrArg (EnumsDiff.mk [] []) ?_
    apply List.filterMap_eq_nil_iff.mpr
    intro n _
    by_cases hc : (dedupFirst (s.enums.map EnumRec.enum_name)).contains n
    · rw [if_pos hc]
      simp
    · rw [if_neg hc]
  · exact simpleKeyedDiff_self _ _ _
  · exact simpleKeyedDiff_self _ _ _
  · exact simpleKeyedDiff_self _ _ _

/-- The C1 failing input: a well-formed snapshot whose single column
belongs to a table named toString (every detail field null). -/
def c1FailingSchema : Schema :=
  ⟨[], [⟨"toString", "a", none, none, none, none, none, none, none, none,
        none, none, none⟩], [], [], [], [], [], []⟩

/-- C1: code bug. On this well-formed snapshot the source `diffColumns`
calls `groupBy(a.columns)`, which reads `result["toString"]`, finds the
inherited truthy `Object.prototype.toString`, skips the array initializer
and throws a TypeError at `result["toString"].push(...)` — modelled by
`none` — so `diffSchemas` throws instead of returning a DiffResult,
against the no-throw claim; `diffSchemas_empty_sections` shows the claimed
behavior holds of the model with the defect collapsed, so the claim is the
intent and the code the slip. -/
theorem c1_groupBy_throws_on_proto_key :
    jsObjectGroupBy Column.table_name c1FailingSchema.columns [] = none := by
  decide

/-- The C2 failing input: a well-formed snapshot whose single enum member
belongs to a type named valueOf. -/
def c2FailingSchema : Schema :=
  ⟨[], [], [], [], [⟨"valueOf", "x"⟩], [], [], []⟩

/-- C2: code bug. With S this snapshot, `diffSchemas(S, S, ...)` reaches
the `buildMap` of `diffEnums`, which reads `map["valueOf"]`, finds the
inherited truthy `Object.prototype.valueOf`, skips the array initializer
and throws a TypeError at `push` — modelled by `none` — so `diff(S, S)`
produces no diff result at all rather than the claimed empty sub-results;
`diffSchemas_self_empty` shows the claimed self-diff emptiness holds of
the model with the defect collapsed, so the claim is the intent and the
code the slip. -/
theorem c2_buildMap_throws_on_proto_key :
    jsObjectGroupBy EnumRec.enum_name c2FailingSchema.enums [] = none := by
  decide

/-- C6: a field of the fixed comparison set appears in the differences list
of a column present in both snapshots exactly when the normalized values
differ on it (null and missing count as the empty string, everything else
is compared after trimming surrounding whitespace); in particular equal
trimmed forms, and null versus blank, report nothing. -/
theorem c6_field_reported_iff_normalized_differs (a b : Column) :
    ((∃ d ∈ compareColumnDetails a b, d.field = "data_type") ↔
      normalize a.data_type ≠ normalize b.data_type) ∧
    ((∃ d ∈ compareColumnDetails a b, d.field = "udt_name") ↔
      normalize a.udt_name ≠ normalize b.udt_name) ∧
    ((∃ d ∈ compareColumnDetails a b, d.field = "character_maximum_length") ↔
      normalize a.character_maximum_length ≠ normalize b.character_maximum_length) ∧
    ((∃ d ∈ compareColumnDetails a b, d.field = "numeric_precision") ↔
      normalize a.numeric_precision ≠ normalize b.numeric_precision) ∧
    ((∃ d ∈ compareColumnDetails a b, d.field = "numeric_scale") ↔
      normalize a.numeric_scale ≠ normalize b.numeric_scale) ∧
    ((∃ d ∈ compareColumnDetails a b, d.field = "is_nullable") ↔
      normalize a.is_nullable ≠ normalize b.is_nullable) ∧
    ((∃ d ∈ compareColumnDetails a b, d.field = "column_default") ↔
      normalize a.column_default ≠ normalize b.column_default) ∧
    ((∃ d ∈ compareColumnDetails a b, d.field = "is_identity") ↔
      normalize a.is_identity ≠ normalize b.is_identity) ∧
    ((∃ d ∈ compareColumnDetails a b, d.field = "identity_generation") ↔
      normalize a.identity_generation ≠ normalize b.identity_generation) ∧
    ((∃ d ∈ compareColumnDetails a b, d.field = "is_generated") ↔
      normalize a.is_generated ≠ normalize b.is_generated) ∧
    ((∃ d ∈ compareColumnDetails a b, d.field = "generation_expression") ↔
      normalize a.generation_expression ≠ normalize b.generation_expression) := by
  refine ⟨?_, ?_, ?_, ?_, ?_, ?_, ?_, ?_, ?_, ?_, ?_⟩ <;>
    (simp only [compareColumnDetails, mem_field_append, mem_fieldDiff_iff]; simp)

/-- C9: `computeStats` is the pure reduction of a diff result: the three
column counters sum the per-table onlyInA, onlyInB and changed lengths over
the columns sub-result, and every other field is the length of the
corresponding sequence of its category. -/
theorem c9_computeStats_reduction (a b : Schema) (la lb : String) :
    computeStats (diffSchemas a b la lb) =
      { tablesOnlyA := (diffSchemas a b la lb).tables.onlyInA.length
        tablesOnlyB := (diffSchemas a b la lb).tables.onlyInB.length
        tablesCommon := (diffSchemas a b la lb).tables.common.length
        columnsOnlyA :=
          (((diffSchemas a b la lb).columns).map (fun p => p.2.onlyInA.length)).sum
        columnsOnlyB :=
          (((diffSchemas a b la lb).columns).map (fun p => p.2.onlyInB.length)).sum
        columnsChanged :=
          (((diffSchemas a b la lb).columns).map (fun p => p.2.changed.length)).sum
        indexesOnlyA := (diffSchemas a b la lb).indexes.onlyInA.length
        indexesOnlyB := (diffSchemas a b la lb).indexes.onlyInB.length
        indexesChanged := (diffSchemas a b la lb).indexes.changed.length
        fksOnlyA := (diffSchemas a b la lb).foreignKeys.onlyInA.length
        fksOnlyB := (diffSchemas a b la lb).foreignKeys.onlyInB.length
        fksChanged := (diffSchemas a b la lb).foreignKeys.changed.length
        enumsOnlyA := (diffSchemas a b la lb).enums.onlyInA.length
        enumsOnlyB := (diffSchemas a b la lb).enums.onlyInB.length
        enumsChanged := (diffSchemas a b la lb).enums.changed.length
        policiesOnlyA := (diffSchemas a b la lb).policies.onlyInA.length
        policiesOnlyB := (diffSchemas a b la lb).policies.onlyInB.length
        policiesChanged := (diffSchemas a b la lb).policies.changed.length
        functionsOnlyA := (diffSchemas a b la lb).functions.onlyInA.length
        functionsOnlyB := (diffSchemas a b la lb).functions.onlyInB.length
        functionsChanged := (diffSchemas a b la lb).functions.changed.length
        triggersOnlyA := (diffSchemas a b la lb).triggers.onlyInA.length
        triggersOnlyB := (diffSchemas a b la lb).triggers.onlyInB.length
        triggersChanged := (diffSchemas a b la lb).triggers.changed.length } := by
  unfold computeStats
  rw [foldl_triple]
  simp

/-- Membership in the column diff determines the per-table diff value. -/
theorem mem_diffColumnsLists {colsA colsB : List Column} {t : String}
    {d : ColTableDiff} (h : (t, d) ∈ diffColumnsLists colsA colsB) :
    d = diffColumnsTable (columnsOfTable colsA t) (columnsOfTable colsB t) := by
  unfold diffColumnsLists at h
  rcases List.mem_filterMap.mp h with ⟨t0, -, hf⟩
  dsimp only at hf
  split at hf
  · exact absurd hf (by simp)
  · rw [Option.some.injEq, Prod.mk.injEq] at hf
    rcases hf with ⟨rfl, rfl⟩
    rfl

/-- The first-occurrence deduplication lists its entries in increasing
order of their first occurrence in the underlying sequence. -/
theorem dedupFirst_pairwise_indexOf : ∀ l : List String,
    (dedupFirst l).Pairwise (fun x y => l.indexOf x < l.indexOf y)
  | [] => List.Pairwise.nil
  | a :: l => by
    rw [dedupFirst_cons]
    refine List.Pairwise.cons ?_ ?_
    · intro y hy
      rcases List.mem_filter.mp hy with ⟨-, hne⟩
      have hya : ¬ (y = a) := by simpa using hne
      rw [List.indexOf_cons_self, List.indexOf_cons_ne l (fun h => hya h.symm)]
      omega
    · have ih := dedupFirst_pairwise_indexOf l
      have hp := List.Pairwise.sublist
        (List.filter_sublist (p := fun y => !(y == a)) (dedupFirst l)) ih
      refine List.Pairwise.imp_of_mem ?_ hp
      intro x y hx hy hlt
      have hxa : ¬ (x = a) := by
        rcases List.mem_filter.mp hx with ⟨-, h⟩
        simpa using h
      have hya : ¬ (y = a) := by
        rcases List.mem_filter.mp hy with ⟨-, h⟩
        simpa using h
      rw [List.indexOf_cons_ne l (fun h => hxa h.symm),
        List.indexOf_cons_ne l (fun h => hya h.symm)]
      omega

/-- A snapshot recording the columns of table t in the order b, a. -/
def c3SchemaA : Schema :=
  ⟨[], [⟨"t", "b", none, none, none, none, none, none, none, none, none, none, none⟩,
        ⟨"t", "a", none, none, none, none, none, none, none, none, none, none, none⟩],
   [], [], [], [], [], []⟩

/-- The empty snapshot paired with `c3SchemaA`. -/
def c3SchemaB : Schema := ⟨[], [], [], [], [], [], [], []⟩

/-- C3 counterexample: the per-table only-in-A column list keeps the
first-occurrence order of the snapshot, here the unsorted ["b", "a"], so
not every onlyInA sequence of the diff is lexicographically sorted. -/
theorem c3_counterexample :
    (diffSchemas c3SchemaA c3SchemaB "A" "B").columns =
      [("t", ⟨["b", "a"], [], []⟩)] ∧
    ¬ List.Sorted strLe ["b", "a"] := by
  constructor
  · decide
  · decide

/-- C3 (amended): every onlyInA and onlyInB sequence of the eight
top-level category sub-results is lexicographically sorted with no
duplicates; the per-table column-name lists inside the columns sub-result
are duplicate-free but follow the first-occurrence order of the recorded
column sequence of their table (entries are listed in strictly increasing
order of first occurrence), not sorted order. -/
theorem c3_sorted_amended (a b : Schema) (la lb : String) :
    (List.Sorted strLe (diffSchemas a b la lb).tables.onlyInA ∧
      (diffSchemas a b la lb).tables.onlyInA.Nodup) ∧
    (List.Sorted strLe (diffSchemas a b la lb).tables.onlyInB ∧
      (diffSchemas a b la lb).tables.onlyInB.Nodup) ∧
    (List.Sorted strLe (diffSchemas a b la lb).indexes.onlyInA ∧
      (diffSchemas a b la lb).indexes.onlyInA.Nodup) ∧
    (List.Sorted strLe (diffSchemas a b la lb).indexes.onlyInB ∧
      (diffSchemas a b la lb).indexes.onlyInB.Nodup) ∧
    (List.Sorted strLe (diffSchemas a b la lb).foreignKeys.onlyInA ∧
      (diffSchemas a b la lb).foreignKeys.onlyInA.Nodup) ∧
    (List.Sorted strLe (diffSchemas a b la lb).foreignKeys.onlyInB ∧
      (diffSchemas a b la lb).foreignKeys.onlyInB.Nodup) ∧
    (List.Sorted strLe (diffSchemas a b la lb).enums.onlyInA ∧
      (diffSchemas a b la lb).enums.onlyInA.Nodup) ∧
    (List.Sorted strLe (diffSchemas a b la lb).enums.onlyInB ∧
      (diffSchemas a b la lb).enums.onlyInB.Nodup) ∧
    (List.Sorted strLe (diffSchemas a b la lb).policies.onlyInA ∧
      (diffSchemas a b la lb).policies.onlyInA.Nodup) ∧
    (List.Sorted strLe (diffSchemas a b la lb).policies.onlyInB ∧
      (diffSchemas a b la lb).policies.onlyInB.Nodup) ∧
    (List.Sorted strLe (diffSchemas a b la lb).functions.onlyInA ∧
      (diffSchemas a b la lb).functions.onlyInA.Nodup) ∧
    (List.Sorted strLe (diffSchemas a b la lb).functions.onlyInB ∧
      (diffSchemas a b la lb).functions.onlyInB.Nodup) ∧
    (List.Sorted strLe (diffSchemas a b la lb).triggers.onlyInA ∧
      (diffSchemas a b la lb).triggers.onlyInA.Nodup) ∧
    (List.Sorted strLe (diffSchemas a b la lb).triggers.onlyInB ∧
      (diffSchemas a b la lb).triggers.onlyInB.Nodup) ∧
    (∀ t d, (t, d) ∈ (diffSchemas a b la lb).columns →
      (d.onlyInA.Nodup ∧ List.Pairwise (fun x y =>
        ((columnsOfTable a.columns t).map Column.column_name).indexOf x <
        ((columnsOfTable a.columns t).map Column.column_name).indexOf y)
        d.onlyInA) ∧
      (d.onlyInB.Nodup ∧ List.Pairwise (fun x y =>
        ((columnsOfTable b.columns t).map Column.column_name).indexOf x <
        ((columnsOfTable b.columns t).map Column.column_name).indexOf y)
        d.onlyInB)) := by
  refine ⟨?_, ?_, ?_, ?_, ?_, ?_, ?_, ?_, ?_, ?_, ?_, ?_, ?_, ?_, ?_⟩
  case _ => exact ⟨sortStrings_sorted _, sortStrings_nodup ((nodup_dedupFirst _).filter _)⟩
  case _ => exact ⟨sortStrings_sorted _, sortStrings_nodup ((nodup_dedupFirst _).filter _)⟩
  case _ => exact ⟨sortStrings_sorted _, sortStrings_nodup ((nodup_dedupFirst _).filter _)⟩
  case _ => exact ⟨sortStrings_sorted _, sortStrings_nodup ((nodup_dedupFirst _).filter _)⟩
  case _ => exact ⟨sortStrings_sorted _, sortStrings_nodup ((nodup_dedupFirst _).filter _)⟩
  case _ => exact ⟨sortStrings_sorted _, sortStrings_nodup ((nodup_dedupFirst _).filter _)⟩
  case _ => exact ⟨sortStrings_sorted _, sortStrings_nodup ((nodup_dedupFirst _).filter _)⟩
  case _ => exact ⟨sortStrings_sorted _, sortStrings_nodup ((nodup_dedupFirst _).filter _)⟩
  case _ => exact ⟨sortStrings_sorted _, sortStrings_nodup ((nodup_dedupFirst _).filter _)⟩
  case _ => exact ⟨sortStrings_sorted _, sortStrings_nodup ((nodup_dedupFirst _).filter _)⟩
  case _ => exact ⟨sortStrings_sorted _, sortStrings_nodup ((nodup_dedupFirst _).filter _)⟩
  case _ => exact ⟨sortStrings_sorted _, sortStrings_nodup ((nodup_dedupFirst _).filter _)⟩
  case _ => exact ⟨sortStrings_sorted _, sortStrings_nodup ((nodup_dedupFirst _).filter _)⟩
  case _ => exact ⟨sortStrings_sorted _, sortStrings_nodup ((nodup_dedupFirst _).filter _)⟩
  case _ =>
    intro t d hmem
    have hd : d = diffColumnsTable (columnsOfTable a.columns t)
        (columnsOfTable b.columns t) := mem_diffColumnsLists hmem
    subst hd
    refine ⟨⟨(nodup_dedupFirst _).filter _, ?_⟩,
      ⟨(nodup_dedupFirst _).filter _, ?_⟩⟩
    · exact List.Pairwise.sublist (List.filter_sublist _)
        (dedupFirst_pairwise_indexOf _)
    · exact List.Pairwise.sublist (List.filter_sublist _)
        (dedupFirst_pairwise_indexOf _)

/-- The A side of the C4 counterexample: one index. -/
def c4SchemaA : Schema := ⟨[], [], [⟨"t", "i", "d1"⟩], [], [], [], [], []⟩

/-- The B side of the C4 counterexample: the same index key with another
definition text. -/
def c4SchemaB : Schema := ⟨[], [], [⟨"t", "i", "d2"⟩], [], [], [], [], []⟩

/-- C4 counterexample: the changed entry the index routine emits carries
the field names key, defA, defB — not key, valueA, valueB as claimed. -/
theorem c4_counterexample :
    (diffSchemas c4SchemaA c4SchemaB "A" "B").indexes.changed =
      [[("key", "t::i"), ("defA", "d1"), ("defB", "d2")]] ∧
    ([("key", "t::i"), ("defA", "d1"), ("defB", "d2")] : ChangedEntry).map Prod.fst ≠
      ["key", "valueA", "valueB"] := by
  constructor
  · decide
  · decide

/-- C4 (amended): every changed entry of a simple category sub-result has
exactly three fields: `key`, then the two per-category value fields —
`valueA`/`valueB` for foreign keys, policies and triggers, `defA`/`defB`
for indexes, `signatureA`/`signatureB` for functions — holding the derived
comparison value strings of that key in A and B, which differ. -/
theorem c4_changed_shape_amended (a b : Schema) (la lb : String) :
    (∀ e ∈ (diffSchemas a b la lb).indexes.changed, ∃ k vA vB,
      mapGet (idxPairs a) k = some vA ∧ mapGet (idxPairs b) k = some vB ∧
      vA ≠ vB ∧ e = [("key", k), ("defA", vA), ("defB", vB)]) ∧
    (∀ e ∈ (diffSchemas a b la lb).foreignKeys.changed, ∃ k vA vB,
      mapGet (fkPairs a) k = some vA ∧ mapGet (fkPairs b) k = some vB ∧
      vA ≠ vB ∧ e = [("key", k), ("valueA", vA), ("valueB", vB)]) ∧
    (∀ e ∈ (diffSchemas a b la lb).policies.changed, ∃ k vA vB,
      mapGet (polPairs a) k = some vA ∧ mapGet (polPairs b) k = some vB ∧
      vA ≠ vB ∧ e = [("key", k), ("valueA", vA), ("valueB", vB)]) ∧
    (∀ e ∈ (diffSchemas a b la lb).functions.changed, ∃ k vA vB,
      mapGet (funPairs a) k = some vA ∧ mapGet (funPairs b) k = some vB ∧
      vA ≠ vB ∧ e = [("key", k), ("signatureA", vA), ("signatureB", vB)]) ∧
    (∀ e ∈ (diffSchemas a b la lb).triggers.changed, ∃ k vA vB,
      mapGet (trgPairs a) k = some vA ∧ mapGet (trgPairs b) k = some vB ∧
      vA ≠ vB ∧ e = [("key", k), ("valueA", vA), ("valueB", vB)]) :=
  ⟨simpleKeyedDiff_changed_shape _ _ _ _, simpleKeyedDiff_changed_shape _ _ _ _,
   simpleKeyedDiff_changed_shape _ _ _ _, simpleKeyedDiff_changed_shape _ _ _ _,
   simpleKeyedDiff_changed_shape _ _ _ _⟩

/-- C5: a duplicated identity key within one collection raises no error
(the routines are total functions): the last record with the key
determines the comparison value via map overwrite — the map holds its
value, and any changed entry for that key carries it — and any key shows
up at most once across the three output sequences. The final conjunct
records that the five category routines are the shared keyed comparison
applied to their key/value pair lists. -/
theorem c5_duplicate_key_last_wins (fA fB : String)
    (pre mid post pb : List (String × String)) (k v1 v2 : String)
    (hpost : k ∉ post.map Prod.fst) :
    mapGet (pre ++ (k, v1) :: mid ++ (k, v2) :: post) k = some v2 ∧
    (∀ e ∈ (simpleKeyedDiff fA fB
        (pre ++ (k, v1) :: mid ++ (k, v2) :: post) pb).changed,
      e.head? = some ("key", k) →
      e = [("key", k), (fA, v2), (fB, (mapGet pb k).getD "")]) ∧
    (∀ pa k0, keyOccurrences (simpleKeyedDiff fA fB pa pb) k0 ≤ 1) ∧
    (∀ a b la lb, (diffSchemas a b la lb).indexes =
        simpleKeyedDiff "defA" "defB" (idxPairs a) (idxPairs b) ∧
      (diffSchemas a b la lb).foreignKeys =
        simpleKeyedDiff "valueA" "valueB" (fkPairs a) (fkPairs b) ∧
      (diffSchemas a b la lb).policies =
        simpleKeyedDiff "valueA" "valueB" (polPairs a) (polPairs b) ∧
      (diffSchemas a b la lb).functions =
        simpleKeyedDiff "signatureA" "signatureB" (funPairs a) (funPairs b) ∧
      (diffSchemas a b la lb).triggers =
        simpleKeyedDiff "valueA" "valueB" (trgPairs a) (trgPairs b)) := by
  have hlist : pre ++ (k, v1) :: mid ++ (k, v2) :: post =
      (pre ++ (k, v1) :: mid) ++ (k, v2) :: post := by
    simp [List.append_assoc]
  have h1 : mapGet (pre ++ (k, v1) :: mid ++ (k, v2) :: post) k = some v2 := by
    rw [hlist]
    exact mapGet_append_last _ _ _ _ hpost
  refine ⟨h1, ?_, ?_, ?_⟩
  · intro e he hhead
    rcases simpleKeyedDiff_changed_shape fA fB _ pb e he with
      ⟨k0, vA, vB, hvA, hvB, -, rfl⟩
    have hk0 : k0 = k := by
      rw [List.head?_cons, Option.some.injEq, Prod.mk.injEq] at hhead
      exact hhead.2
    subst hk0
    obtain rfl : vA = v2 := Option.some.inj (hvA.symm.trans h1)
    simp [hvB]
  · intro pa k0
    exact keyOccurrences_le_one fA fB pa pb k0
  · intro a b la lb
    exact ⟨rfl, rfl, rfl, rfl, rfl⟩

/-- C5 witness: the concrete duplicated key k with values 1 then 2 yields
the value 2. -/
theorem c5_witness :
    mapGet ([("a", "x")] ++ ("k", "1") :: [] ++ ("k", "2") :: []) "k" = some "2" :=
  (c5_duplicate_key_last_wins "valueA" "valueB" [("a", "x")] [] [] [("k", "9")]
    "k" "1" "2" (by decide)).1

/-- A non-empty per-table diff needs records on at least one side. -/
theorem diffColumnsTable_ne_nil_sides {colsA colsB : List Column}
    (h : (diffColumnsTable colsA colsB).onlyInA ≠ [] ∨
         (diffColumnsTable colsA colsB).onlyInB ≠ [] ∨
         (diffColumnsTable colsA colsB).changed ≠ []) :
    colsA ≠ [] ∨ colsB ≠ [] := by
  rcases h with h | h | h
  · left
    intro hc
    subst hc
    exact h rfl
  · right
    intro hc
    subst hc
    exact h rfl
  · left
    intro hc
    subst hc
    exact h rfl

/-- A table with a recorded column is an observed table name. -/
theorem mem_table_names_of_ne_nil {cols : List Column} {t : String}
    (h : columnsOfTable cols t ≠ []) : t ∈ cols.map Column.table_name := by
  rcases List.exists_mem_of_ne_nil _ h with ⟨c, hc⟩
  rcases List.mem_filter.mp hc with ⟨hcl, hpred⟩
  exact List.mem_map.mpr ⟨c, hcl, by simpa using hpred⟩

/-- C7: a table name keys the columns sub-result exactly when its per-table
column diff has at least one only-in-A column, only-in-B column or changed
column; a table with no column difference is absent entirely. -/
theorem c7_table_key_iff_nonzero_diff (a b : Schema) (la lb : String) (t : String) :
    (∃ d, (t, d) ∈ (diffSchemas a b la lb).columns) ↔
      ((diffColumnsTable (columnsOfTable a.columns t)
          (columnsOfTable b.columns t)).onlyInA ≠ [] ∨
       (diffColumnsTable (columnsOfTable a.columns t)
          (columnsOfTable b.columns t)).onlyInB ≠ [] ∨
       (diffColumnsTable (columnsOfTable a.columns t)
          (columnsOfTable b.columns t)).changed ≠ []) := by
  constructor
  · rintro ⟨d, hd⟩
    replace hd : (t, d) ∈ diffColumnsLists a.columns b.columns := hd
    unfold diffColumnsLists at hd
    rcases List.mem_filterMap.mp hd with ⟨t0, -, hf⟩
    dsimp only at hf
    split at hf
    · exact absurd hf (by simp)
    · rename_i hcond
      rw [Option.some.injEq, Prod.mk.injEq] at hf
      rcases hf with ⟨rfl, -⟩
      by_contra hcon
      push_neg at hcon
      rcases hcon with ⟨h1, h2, h3⟩
      exact hcond (by simp [h1, h2, h3])
  · intro hne
    refine ⟨diffColumnsTable (columnsOfTable a.columns t) (columnsOfTable b.columns t), ?_⟩
    show (t, _) ∈ diffColumnsLists a.columns b.columns
    unfold diffColumnsLists
    apply List.mem_filterMap.mpr
    refine ⟨t, ?_, ?_⟩
    · apply mem_dedupFirst.mpr
      rw [List.mem_append]
      rcases diffColumnsTable_ne_nil_sides hne with hA | hB
      · exact Or.inl (mem_dedupFirst.mpr (mem_table_names_of_ne_nil hA))
      · exact Or.inr (mem_dedupFirst.mpr (mem_table_names_of_ne_nil hB))
    · dsimp only
      rw [if_neg ?_]
      intro hc
      simp only [Bool.and_eq_true, List.isEmpty_iff] at hc
      rcases hne with h | h | h
      · exact h hc.1.1
      · exact h hc.1.2
      · exact h hc.2

/-- The A side of the C8 counterexample: enum type e records the member
value x twice. -/
def c8SchemaA : Schema := ⟨[], [], [], [], [⟨"e", "x"⟩, ⟨"e", "x"⟩], [], [], []⟩

/-- The B side of the C8 counterexample: enum type e records x once. -/
def c8SchemaB : Schema := ⟨[], [], [], [], [⟨"e", "x"⟩], [], [], []⟩

/-- C8 counterexample: the two member-value sequences of enum e are equal
as sets, yet a changed entry is produced, because the engine compares the
sorted sequences, which keep duplicate values. -/
theorem c8_counterexample :
    (["x", "x"] : List String).toFinset = (["x"] : List String).toFinset ∧
    enumValuesOf c8SchemaA.enums "e" = ["x", "x"] ∧
    enumValuesOf c8SchemaB.enums "e" = ["x"] ∧
    (diffSchemas c8SchemaA c8SchemaB "A" "B").enums.changed =
      [⟨"e", ["x", "x"], ["x"]⟩] := by
  refine ⟨by decide, by decide, by decide, by decide⟩

/-- The changed entry of `diffEnums` selected by one type name. -/
theorem diffEnums_changed_filter (a b : Schema) (n : String) :
    ((diffEnums a b).changed.filter (fun c => c.name == n)) =
      if n ∈ dedupFirst (a.enums.map EnumRec.enum_name) then
        (if (dedupFirst (b.enums.map EnumRec.enum_name)).contains n then
           if sortStrings (enumValuesOf a.enums n) == sortStrings (enumValuesOf b.enums n)
           then none
           else some ⟨n, sortStrings (enumValuesOf a.enums n),
                         sortStrings (enumValuesOf b.enums n)⟩
         else none).toList
      else [] := by
  show (((dedupFirst (a.enums.map EnumRec.enum_name)).filterMap
      (fun n0 => (if (dedupFirst (b.enums.map EnumRec.enum_name)).contains n0 then
        if sortStrings (enumValuesOf a.enums n0) == sortStrings (enumValuesOf b.enums n0)
        then none
        else some ⟨n0, sortStrings (enumValuesOf a.enums n0),
                      sortStrings (enumValuesOf b.enums n0)⟩
      else none : Option EnumChanged))).filter (fun c => c.name == n)) = _
  refine filterMap_filter_name EnumChanged.name _ ?_ _ (nodup_dedupFirst _) n
  intro n0 e hfe
  split at hfe
  · split at hfe
    · exact absurd hfe (by simp)
    · rw [Option.some.injEq] at hfe
      rw [← hfe]
  · exact absurd hfe (by simp)

/-- C8 (amended): for an enum type name present in both snapshots, no
changed entry is produced exactly when the two member-value sequences are
equal as multisets (the same values with the same multiplicities, so
declared order never matters); when they differ as multisets, exactly one
changed entry is produced, carrying the two sorted value sequences. -/
theorem c8_enum_changed_amended (a b : Schema) (la lb : String) (n : String)
    (hA : n ∈ a.enums.map EnumRec.enum_name)
    (hB : n ∈ b.enums.map EnumRec.enum_name) :
    (List.Perm (enumValuesOf a.enums n) (enumValuesOf b.enums n) →
      ((diffSchemas a b la lb).enums.changed.filter (fun c => c.name == n)) = []) ∧
    (¬ List.Perm (enumValuesOf a.enums n) (enumValuesOf b.enums n) →
      ((diffSchemas a b la lb).enums.changed.filter (fun c => c.name == n)) =
        [⟨n, sortStrings (enumValuesOf a.enums n),
             sortStrings (enumValuesOf b.enums n)⟩]) := by
  have hnA : n ∈ dedupFirst (a.enums.map EnumRec.enum_name) := mem_dedupFirst.mpr hA
  have hnB : (dedupFirst (b.enums.map EnumRec.enum_name)).contains n = true :=
    List.elem_eq_true_of_mem (mem_dedupFirst.mpr hB)
  have hch : (diffSchemas a b la lb).enums.changed = (diffEnums a b).changed := rfl
  constructor
  · intro hperm
    have hsa : sortStrings (enumValuesOf a.enums n) =
        sortStrings (enumValuesOf b.enums n) := sortStrings_eq_iff_perm.mpr hperm
    rw [hch, diffEnums_changed_filter, if_pos hnA, if_pos hnB,
      if_pos (beq_iff_eq.mpr hsa)]
    rfl
  · intro hnp
    have hsa : sortStrings (enumValuesOf a.enums n) ≠
        sortStrings (enumValuesOf b.enums n) :=
      fun hEq => hnp (sortStrings_eq_iff_perm.mp hEq)
    rw [hch, diffEnums_changed_filter, if_pos hnA, if_pos hnB,
      if_neg (by simp [beq_eq_false_iff_ne.mpr hsa])]
    rfl

/-- C8 witness: the same duplicated-value enum, whose sequences are not
multiset-equal, produces exactly one changed entry. -/
theorem c8_witness :
    ((diffSchemas c8SchemaA c8SchemaB "A" "B").enums.changed.filter
      (fun c => c.name == "e")) =
      [⟨"e", sortStrings (enumValuesOf c8SchemaA.enums "e"),
            sortStrings (enumValuesOf c8SchemaB.enums "e")⟩] :=
  (c8_enum_changed_amended c8SchemaA c8SchemaB "A" "B" "e"
    (by decide) (by decide)).2 (by decide)

/-- Mapping a stamped partial producer over its inputs keeps exactly the
inputs it fires on. -/
theorem map_filterMap_stamped {α : Type} (g : α → String) (f : String → Option α)
    (hf : ∀ n e, f n = some e → g e = n) :
    ∀ l : List String, (l.filterMap f).map g = l.filter (fun n => (f n).isSome) := by
  intro l
  induction l with
  | nil => rfl
  | cons x xs ih =>
    rw [List.filterMap_cons, List.filter_cons]
    cases hfx : f x with
    | none => simp [ih]
    | some e => simp [ih, hf x e hfx]

/-- A column name contributes at most one entry across the three output
sequences of a per-table column diff. -/
theorem diffColumnsTable_count_le_one (colsA colsB : List Column) (n : String) :
    (diffColumnsTable colsA colsB).onlyInA.count n +
    (diffColumnsTable colsA colsB).onlyInB.count n +
    ((diffColumnsTable colsA colsB).changed.map ColChanged.column).count n ≤ 1 := by
  simp only [diffColumnsTable]
  have hstamp : ∀ n0 (e : ColChanged),
      (if (dedupFirst (colsB.map Column.column_name)).contains n0 then
        match colsA.find? (fun c => c.column_name == n0),
              colsB.find? (fun c => c.column_name == n0) with
        | some cA, some cB =>
          let diffs := compareColumnDetails cA cB
          if diffs.isEmpty then none else some ⟨n0, diffs⟩
        | _, _ => none
      else none) = some e → e.column = n0 := by
    intro n0 e hfe
    split at hfe
    · split at hfe
      · rename_i cA cB
        dsimp only at hfe
        split at hfe
        · exact absurd hfe (by simp)
        · rw [Option.some.injEq] at hfe
          rw [← hfe]
      · exact absurd hfe (by simp)
    · exact absurd hfe (by simp)
  rw [map_filterMap_stamped ColChanged.column _ hstamp]
  by_cases hka : n ∈ dedupFirst (colsA.map Column.column_name)
  · by_cases hkb : (dedupFirst (colsB.map Column.column_name)).contains n = true
    · have hA0 : ((dedupFirst (colsA.map Column.column_name)).filter
          (fun n0 => !((dedupFirst (colsB.map Column.column_name)).contains n0))).count n = 0 := by
        apply List.count_eq_zero.mpr
        intro hmem
        rcases List.mem_filter.mp hmem with ⟨-, hnc⟩
        simp at hnc
        exact hnc (List.mem_of_elem_eq_true hkb)
      have hB0 : ((dedupFirst (colsB.map Column.column_name)).filter
          (fun n0 => !((dedupFirst (colsA.map Column.column_name)).contains n0))).count n = 0 := by
        apply List.count_eq_zero.mpr
        intro hmem
        rcases List.mem_filter.mp hmem with ⟨-, hnc⟩
        simp at hnc
        exact hnc hka
      rw [hA0, hB0]
      have hsub := List.Sublist.count_le (List.filter_sublist
        (l := dedupFirst (colsA.map Column.column_name))
        (p := fun n0 => ((if (dedupFirst (colsB.map Column.column_name)).contains n0 then
          match colsA.find? (fun c => c.column_name == n0),
                colsB.find? (fun c => c.column_name == n0) with
          | some cA, some cB =>
            let diffs := compareColumnDetails cA cB
            if diffs.isEmpty then none else some ⟨n0, diffs⟩
          | _, _ => none
        else none : Option ColChanged)).isSome)) n
      have hle : (dedupFirst (colsA.map Column.column_name)).count n ≤ 1 :=
        List.nodup_iff_count_le_one.mp (nodup_dedupFirst _) n
      omega
    · have hC0 : ((dedupFirst (colsA.map Column.column_name)).filter
          (fun n0 => ((if (dedupFirst (colsB.map Column.column_name)).contains n0 then
            match colsA.find? (fun c => c.column_name == n0),
                  colsB.find? (fun c => c.column_name == n0) with
            | some cA, some cB =>
              let diffs := compareColumnDetails cA cB
              if diffs.isEmpty then none else some ⟨n0, diffs⟩
            | _, _ => none
          else none : Option ColChanged)).isSome)).count n = 0 := by
        apply List.count_eq_zero.mpr
        intro hmem
        rcases List.mem_filter.mp hmem with ⟨-, hc⟩
        rw [if_neg hkb] at hc
        simp at hc
      have hB0 : ((dedupFirst (colsB.map Column.column_name)).filter
          (fun n0 => !((dedupFirst (colsA.map Column.column_name)).contains n0))).count n = 0 := by
        apply List.count_eq_zero.mpr
        intro hmem
        rcases List.mem_filter.mp hmem with ⟨-, hnc⟩
        simp at hnc
        exact hnc hka
      rw [hC0, hB0]
      have hsub := List.Sublist.count_le (List.filter_sublist
        (l := dedupFirst (colsA.map Column.column_name))
        (p := fun n0 => !((dedupFirst (colsB.map Column.column_name)).contains n0))) n
      have hle : (dedupFirst (colsA.map Column.column_name)).count n ≤ 1 :=
        List.nodup_iff_count_le_one.mp (nodup_dedupFirst _) n
      omega
  · have hA0 : ((dedupFirst (colsA.map Column.column_name)).filter
        (fun n0 => !((dedupFirst (colsB.map Column.column_name)).contains n0))).count n = 0 := by
      apply List.count_eq_zero.mpr
      intro hmem
      exact hka (List.mem_of_mem_filter hmem)
    have hC0 : ((dedupFirst (colsA.map Column.column_name)).filter
        (fun n0 => ((if (dedupFirst (colsB.map Column.column_name)).contains n0 then
          match colsA.find? (fun c => c.column_name == n0),
                colsB.find? (fun c => c.column_name == n0) with
          | some cA, some cB =>
            let diffs := compareColumnDetails cA cB
            if diffs.isEmpty then none else some ⟨n0, diffs⟩
          | _, _ => none
        else none : Option ColChanged)).isSome)).count n = 0 := by
      apply List.count_eq_zero.mpr
      intro hmem
      exact hka (List.mem_of_mem_filter hmem)
    rw [hA0, hC0]
    have hsub := List.Sublist.count_le (List.filter_sublist
      (l := dedupFirst (colsB.map Column.column_name))
      (p := fun n0 => !((dedupFirst (colsA.map Column.column_name)).contains n0))) n
    have hle : (dedupFirst (colsB.map Column.column_name)).count n ≤ 1 :=
      List.nodup_iff_count_le_one.mp (nodup_dedupFirst _) n
    omega

/-- `find` with a column-name predicate skips a record whose name already
occurred earlier: the first record with each name settles every lookup. -/
theorem find?_name_drop_dup {p : List Column} (q : List Column) (c : Column)
    (h : c.column_name ∈ p.map Column.column_name) (n : String) :
    (p ++ c :: q).find? (fun col => col.column_name == n) =
      (p ++ q).find? (fun col => col.column_name == n) := by
  rw [List.find?_append, List.find?_append]
  cases hp : p.find? (fun col => col.column_name == n) with
  | some cA => rfl
  | none =>
    have hnc : ¬ ((c.column_name == n) = true) := by
      intro hcn
      have hn : c.column_name = n := by simpa using hcn
      rcases List.mem_map.mp h with ⟨c1, hc1, hname⟩
      have := List.find?_eq_none.mp hp c1 hc1
      apply this
      simp [hname, hn]
    rw [List.find?_cons_of_neg (p := fun col => col.column_name == n) q hnc]

/-- Dropping a column record whose name already occurred earlier in the
sequence of the same table leaves the per-table diff unchanged: `find` returns
the first record with a name, so later duplicates are never consulted. -/
theorem diffColumnsTable_drop_dup {p : List Column} (q : List Column) (c : Column)
    (colsB : List Column) (h : c.column_name ∈ p.map Column.column_name) :
    diffColumnsTable (p ++ c :: q) colsB = diffColumnsTable (p ++ q) colsB := by
  have hnames : dedupFirst ((p ++ c :: q).map Column.column_name) =
      dedupFirst ((p ++ q).map Column.column_name) := by
    rw [List.map_append, List.map_cons, dedupFirst_middle _ h, ← List.map_append]
  simp only [diffColumnsTable]
  rw [hnames]
  refine congrArg (ColTableDiff.mk _ _) ?_
  apply List.filterMap_congr
  intro n _
  rw [find?_name_drop_dup q c h n]

/-- The B-side mirror of `diffColumnsTable_drop_dup`: `find` on the B
collection likewise returns the first record with a name, so a later
duplicate in B is never consulted either. -/
theorem diffColumnsTable_drop_dup_right (colsA : List Column) {p : List Column}
    (q : List Column) (c : Column)
    (h : c.column_name ∈ p.map Column.column_name) :
    diffColumnsTable colsA (p ++ c :: q) = diffColumnsTable colsA (p ++ q) := by
  have hnames : dedupFirst ((p ++ c :: q).map Column.column_name) =
      dedupFirst ((p ++ q).map Column.column_name) := by
    rw [List.map_append, List.map_cons, dedupFirst_middle _ h, ← List.map_append]
  simp only [diffColumnsTable]
  rw [hnames]
  refine congrArg (ColTableDiff.mk _ _) ?_
  apply List.filterMap_congr
  intro n _
  rw [find?_name_drop_dup q c h n]

/-- C10: duplicate column keys resolve first-wins in either snapshot: a
column record whose (table, column) pair already occurred earlier in the
column sequence of its snapshot is ignored entirely — whether that
snapshot plays the A role or the B role — so the first record is the one
compared; moreover any column name contributes at most one entry across
onlyInA, onlyInB and changed of its table, unlike the last-wins map
overwrite of the simple keyed routines. The last conjunct records that the
columns category of a diff result is this column diff. -/
theorem c10_columns_first_wins (colsB pre post : List Column) (c2 : Column)
    (hdup : ∃ c1 ∈ pre, c1.table_name = c2.table_name ∧
      c1.column_name = c2.column_name) :
    diffColumnsLists (pre ++ c2 :: post) colsB = diffColumnsLists (pre ++ post) colsB ∧
    diffColumnsLists colsB (pre ++ c2 :: post) = diffColumnsLists colsB (pre ++ post) ∧
    (∀ colsA t d n, (t, d) ∈ diffColumnsLists colsA colsB →
      d.onlyInA.count n + d.onlyInB.count n +
        (d.changed.map ColChanged.column).count n ≤ 1) ∧
    (∀ a b la lb, (diffSchemas a b la lb).columns = diffColumnsLists a.columns b.columns) := by
  rcases hdup with ⟨c1, hc1mem, hc1t, hc1n⟩
  have htables : dedupFirst ((pre ++ c2 :: post).map Column.table_name) =
      dedupFirst ((pre ++ post).map Column.table_name) := by
    rw [List.map_append, List.map_cons,
      dedupFirst_middle _ (List.mem_map.mpr ⟨c1, hc1mem, hc1t⟩),
      ← List.map_append]
  have hsplit : ∀ t, (c2.table_name == t) = true →
      columnsOfTable (pre ++ c2 :: post) t =
        columnsOfTable pre t ++ c2 :: columnsOfTable post t := by
    intro t ht
    simp only [columnsOfTable, List.filter_append, List.filter_cons, ht, if_pos]
  have hskip : ∀ t, ¬ ((c2.table_name == t) = true) →
      columnsOfTable (pre ++ c2 :: post) t =
        columnsOfTable pre t ++ columnsOfTable post t := by
    intro t ht
    simp only [columnsOfTable, List.filter_append, List.filter_cons]
    rw [if_neg ht]
  have hplain : ∀ t, columnsOfTable (pre ++ post) t =
      columnsOfTable pre t ++ columnsOfTable post t := by
    intro t
    simp only [columnsOfTable, List.filter_append]
  have hdupname : ∀ t, (c2.table_name == t) = true →
      c2.column_name ∈ (columnsOfTable pre t).map Column.column_name := by
    intro t ht
    apply List.mem_map.mpr
    refine ⟨c1, ?_, hc1n⟩
    apply List.mem_filter.mpr
    refine ⟨hc1mem, ?_⟩
    rw [hc1t]
    exact ht
  refine ⟨?_, ?_, ?_, fun a b la lb => rfl⟩
  · have htable : ∀ t, diffColumnsTable (columnsOfTable (pre ++ c2 :: post) t)
        (columnsOfTable colsB t) =
        diffColumnsTable (columnsOfTable (pre ++ post) t) (columnsOfTable colsB t) := by
      intro t
      by_cases ht : (c2.table_name == t) = true
      · rw [hsplit t ht, hplain t]
        exact diffColumnsTable_drop_dup _ _ _ (hdupname t ht)
      · rw [hskip t ht, hplain t]
    unfold diffColumnsLists
    rw [htables]
    apply List.filterMap_congr
    intro t _
    dsimp only
    rw [htable t]
  · have htable : ∀ t, diffColumnsTable (columnsOfTable colsB t)
        (columnsOfTable (pre ++ c2 :: post) t) =
        diffColumnsTable (columnsOfTable colsB t) (columnsOfTable (pre ++ post) t) := by
      intro t
      by_cases ht : (c2.table_name == t) = true
      · rw [hsplit t ht, hplain t]
        exact diffColumnsTable_drop_dup_right _ _ _ (hdupname t ht)
      · rw [hskip t ht, hplain t]
    unfold diffColumnsLists
    rw [htables]
    apply List.filterMap_congr
    intro t _
    dsimp only
    rw [htable t]
  · intro colsA t d n hmem
    have hd : d = diffColumnsTable (columnsOfTable colsA t) (columnsOfTable colsB t) :=
      mem_diffColumnsLists hmem
    subst hd
    exact diffColumnsTable_count_le_one _ _ n

/-- The first record of the C10 witness: column a of table t typed int. -/
def c10Col1 : Column :=
  ⟨"t", "a", some "int", none, none, none, none, none, none, none, none, none, none⟩

/-- The duplicate record of the C10 witness: same table and column name,
typed text. -/
def c10Col2 : Column :=
  ⟨"t", "a", some "text", none, none, none, none, none, none, none, none, none, none⟩

/-- C10 witness: with the duplicate present, the diff equals the diff
without it. -/
theorem c10_witness :
    diffColumnsLists ([c10Col1] ++ c10Col2 :: []) [] =
      diffColumnsLists ([c10Col1] ++ []) [] :=
  (c10_columns_first_wins [] [c10Col1] [] c10Col2
    ⟨c10Col1, by decide, by decide, by decide⟩).1

end SchemaCompare
